import Mathlib

/-!
Verification of `walkman_playlists_app.py` (Walkman Playlist Creator).

The development shallowly embeds the pure content of the application:

* paths are modelled as lists of components (`List String`); an absolute
  POSIX path such as `/music/sub` is the component list `["music", "sub"]`
  (empty components filtered, as `posixpath.relpath` does); `Path.resolve`
  is modelled as the identity, i.e. paths are assumed normalised and
  symlink-free;
* strings are Lean `String`s; `str.lower` is modelled with `Char.toLower`
  (ASCII case folding), `str.strip` with `Char.isWhitespace`;
* the GUI is abstracted away: dialog answers (chosen folders, entered
  names, accept/cancel buttons) are inputs of the embedded functions, and
  message boxes / file writes are values of the result types.
-/

namespace Walkman

/-- `str.lower()` of Python, modelled character by character. -/
def lowerStr (s : String) : String :=
  (s.data.map Char.toLower).asString

/-- `str.strip()` of Python: drop whitespace from both ends. -/
def stripStr (s : String) : String :=
  (((s.data.dropWhile Char.isWhitespace).reverse.dropWhile Char.isWhitespace).reverse).asString

/-- `s.endswith(suff)` of Python. -/
def strEndsWith (s suff : String) : Bool :=
  suff.data.isSuffixOf s.data

/-- `hay.find(needle) != -1` of Python: `needle` occurs contiguously in `hay`. -/
def containsSub : List Char → List Char → Bool
  | [], needle => needle.isPrefixOf ([] : List Char)
  | c :: t, needle => needle.isPrefixOf (c :: t) || containsSub t needle

/-- Lexicographic comparison of character lists by code point, the order
Python uses to compare strings (`x <= y`). -/
def lexLe : List Char → List Char → Bool
  | [], _ => true
  | _ :: _, [] => false
  | a :: as, b :: bs =>
    if a.toNat < b.toNat then true
    else if b.toNat < a.toNat then false
    else lexLe as bs

/-- The comparison `s.lower() <= t.lower()` used as sort key by `scan_folder`
(`sorted(track_list, key=lambda s: s.lower())`). -/
abbrev lowerLe (a b : String) : Prop :=
  lexLe (lowerStr a).data (lowerStr b).data = true

/-- `"/".join(components)`: how a relative `pathlib.Path` prints. -/
def joinPath : List String → String
  | [] => ""
  | [c] => c
  | c :: cs => c ++ "/" ++ joinPath cs

/-- Split a character list at every `'/'`. -/
def splitOnSlash : List Char → List (List Char)
  | [] => [[]]
  | c :: cs =>
    match splitOnSlash cs with
    | [] => [[]]
    | g :: gs => if c = '/' then [] :: g :: gs else (c :: g) :: gs

/-- Components of a path string: `Path(root) / t` appends these to `root`. -/
def splitPath (t : String) : List String :=
  (splitOnSlash t.data).map List.asString

/-- `AUDIO_EXTS` from the source. -/
def AUDIO_EXTS : List String :=
  [".mp3", ".flac", ".wav", ".m4a", ".aac", ".ogg"]

/-- `f.lower().endswith(AUDIO_EXTS)`: the scan's file test. -/
def isAudioFile (f : String) : Bool :=
  AUDIO_EXTS.any (fun e => strEndsWith (lowerStr f) e)

/-- One file met during `os.walk(start)`: the directory holding it, as a
path relative to `start`, and the file's name. -/
structure WalkEntry where
  subdir : List String
  file : String

/-- The body of the scan loop for one file: `full = Path(root) / f`, then
either `full.relative_to(self.root_folder)` when a root is set and `full`
is inside it, or `full.relative_to(start)`. -/
def recordTrack (rootFolder : Option (List String)) (start : List String)
    (e : WalkEntry) : String :=
  let full := start ++ e.subdir ++ [e.file]
  match rootFolder with
  | some r =>
    if r.isPrefixOf full then joinPath (full.drop r.length)
    else joinPath (full.drop start.length)
  | none => joinPath (full.drop start.length)

/-- The `track_list` accumulated by the scan loop, in walk order. -/
def trackListOf (rootFolder : Option (List String)) (start : List String) :
    List WalkEntry → List String
  | [] => []
  | e :: es =>
    if isAudioFile e.file
    then recordTrack rootFolder start e :: trackListOf rootFolder start es
    else trackListOf rootFolder start es

/-- `sorted(track_list, key=lambda s: s.lower())`: a stable sort under the
total preorder `lowerLe` (all stable sorts agree, so insertion sort models
Python's Timsort exactly). -/
def sortByLower (l : List String) : List String :=
  List.insertionSort lowerLe l

/-- `scan_folder`: start at the root folder when one is set, otherwise at
the folder chosen in the dialog; collect, then sort. -/
def scanFolder (rootFolder : Option (List String)) (chosen : List String)
    (entries : List WalkEntry) : List String :=
  let start := rootFolder.getD chosen
  sortByLower (trackListOf rootFolder start entries)

/-- The pure state of the application. -/
structure AppState where
  rootFolder : Option (List String)
  library : List String
  playlist : List String
deriving DecidableEq

/-- `scan_folder` as a state transition: `self.library = track_list`. -/
def scanStep (s : AppState) (chosen : List String) (entries : List WalkEntry) :
    AppState :=
  { s with library := scanFolder s.rootFolder chosen entries }

/-- `filter_library`: the displayed view rebuilt from `self.library`.
The kept entries are those passing the source's test
`txt == '' or txt.lower().find(txt) != -1` with `txt = input.strip().lower()`. -/
def filterLibrary (library : List String) (txtRaw : String) : List String :=
  let txt := lowerStr (stripStr txtRaw)
  library.filter fun _t => txt == "" || containsSub (lowerStr txt).data txt.data

/-- Follows the spec's words (not the source): keep the entries whose text
contains the search string as a case-insensitive substring, the empty
string matching everything. -/
def specFilterLibrary (library : List String) (txt : String) : List String :=
  library.filter fun t => containsSub (lowerStr t).data (lowerStr txt).data

/-- Length of the longest common leading run of components, as computed by
`posixpath.relpath` via `commonprefix`. -/
def commonLen : List String → List String → Nat
  | a :: as, b :: bs => if a = b then commonLen as bs + 1 else 0
  | _, _ => 0

/-- The component list `['..'] * (len(start) - i) + path[i:]` built by
`posixpath.relpath(path, start)`. -/
def relpathL (pathL startL : List String) : List String :=
  let i := commonLen pathL startL
  List.replicate (startL.length - i) ".." ++ pathL.drop i

/-- `os.path.relpath(path, start)` on component lists. `none` models the
`ValueError` raised when no path is given (the `try/except` fallback in
`save_playlist`); the empty relative result prints as `'.'`. -/
def relpathOpt (pathL startL : List String) : Option String :=
  if pathL.isEmpty then none
  else
    let r := relpathL pathL startL
    some (if r.isEmpty then "." else joinPath r)

/-- The path line written for one track `t` by the save loop: `t` verbatim
when the playlist is saved directly in the root folder or when no root is
set; otherwise `os.path.relpath(self.root_folder / t, save_path.parent)`,
falling back to `t` when that raises. -/
def lineFor (rootFolder : Option (List String)) (saveDir : List String)
    (t : String) : String :=
  match rootFolder with
  | some r =>
    if saveDir = r then t
    else (relpathOpt (r ++ splitPath t) saveDir).getD t
  | none => t

/-- The lines written by the body of the save loop, one
`#EXTINF:,` / path-line pair per track. -/
def trackLines (rootFolder : Option (List String)) (saveDir : List String) :
    List String → List String
  | [] => []
  | t :: ts => "#EXTINF:," :: lineFor rootFolder saveDir t ::
      trackLines rootFolder saveDir ts

/-- The full contents of the saved `.m3u8` file, as a list of lines
(each followed by `\n`; the UTF-8 encoding writes no byte-order mark). -/
def saveLines (rootFolder : Option (List String)) (saveDir : List String)
    (tracks : List String) : List String :=
  "#EXTM3U" :: trackLines rootFolder saveDir tracks

/-- Outcome of `save_playlist`: the warning on an empty playlist, the two
silent aborts (name dialog, file dialog), or a file write. `suggested` is
the default file name handed to the save dialog. -/
inductive SaveResult where
  | warnedEmpty : SaveResult
  | abortedName : SaveResult
  | abortedPath (suggested : String) : SaveResult
  | wrote (suggested : String) (saveDir : List String) (lines : List String) :
      SaveResult
deriving DecidableEq

/-- `save_playlist` as a pure function of the state and the dialog answers:
`ok`/`nameText` from the name prompt, `dialogDir` the directory of the path
picked in the save dialog (`none` when cancelled). The state is returned
unchanged: the method never mutates it. -/
def savePlaylist (s : AppState) (ok : Bool) (nameText : String)
    (dialogDir : Option (List String)) : AppState × SaveResult :=
  if s.playlist.isEmpty then (s, .warnedEmpty)
  else if !ok || stripStr nameText == "" then (s, .abortedName)
  else
    let name := stripStr nameText
    let suggested := name ++ ".m3u8"
    match dialogDir with
    | none => (s, .abortedPath suggested)
    | some saveDir =>
      (s, .wrote suggested saveDir (saveLines s.rootFolder saveDir s.playlist))

/-- `QListWidget.takeItem(row)`: remove and return the item at `row`, or
`nullptr` (here `none`) leaving the list alone when `row` is out of range. -/
def takeItemAt (items : List String) (row : Int) : Option String × List String :=
  if 0 ≤ row ∧ row < (items.length : Int) then
    (items[row.toNat]?, items.eraseIdx row.toNat)
  else (none, items)

/-- `QListWidget.insertItem(row, item)`: no-op on `nullptr`. -/
def insertItemAt (items : List String) (row : Int) : Option String → List String
  | none => items
  | some x => items.insertIdx row.toNat x

/-- `move_up`: guarded by `row > 0`; take the item at `row` and re-insert it
at `row - 1`. Returns the new list and current row. -/
def moveUp (items : List String) (row : Int) : List String × Int :=
  if 0 < row then
    let p := takeItemAt items row
    (insertItemAt p.2 (row - 1) p.1, row - 1)
  else (items, row)

/-- `move_down`: guarded by `row >= 0 and row < count - 1`; take the item at
`row` and re-insert it at `row + 1`. -/
def moveDown (items : List String) (row : Int) : List String × Int :=
  if 0 ≤ row ∧ row < (items.length : Int) - 1 then
    let p := takeItemAt items row
    (insertItemAt p.2 (row + 1) p.1, row + 1)
  else (items, row)

/-! ### Helper lemmas -/

theorem lexLe_total : ∀ x y : List Char, lexLe x y = true ∨ lexLe y x = true := by
  intro x
  induction x with
  | nil => intro y; left; rfl
  | cons a as ih =>
    intro y
    cases y with
    | nil => right; rfl
    | cons b bs =>
      by_cases h1 : a.toNat < b.toNat
      · left; simp [lexLe, h1]
      · by_cases h2 : b.toNat < a.toNat
        · right; simp [lexLe, h2]
        · rcases ih bs with h | h
          · left; simp [lexLe, h1, h2, h]
          · right; simp [lexLe, h1, h2, h]

theorem lexLe_trans : ∀ x y z : List Char,
    lexLe x y = true → lexLe y z = true → lexLe x z = true := by
  intro x
  induction x with
  | nil => intro y z _ _; rfl
  | cons a as ih =>
    intro y z hxy hyz
    cases y with
    | nil => simp [lexLe] at hxy
    | cons b bs =>
      cases z with
      | nil => simp [lexLe] at hyz
      | cons c cs =>
        simp only [lexLe] at hxy hyz ⊢
        by_cases hab : a.toNat < b.toNat
        · by_cases hbc : b.toNat < c.toNat
          · have hac : a.toNat < c.toNat := lt_trans hab hbc
            simp [hac]
          · by_cases hcb : c.toNat < b.toNat
            · rw [if_neg hbc, if_pos hcb] at hyz
              simp at hyz
            · have hac : a.toNat < c.toNat := by omega
              simp [hac]
        · by_cases hba : b.toNat < a.toNat
          · rw [if_neg hab, if_pos hba] at hxy
            simp at hxy
          · have hxy' : lexLe as bs = true := by rwa [if_neg hab, if_neg hba] at hxy
            by_cases hbc : b.toNat < c.toNat
            · have hac : a.toNat < c.toNat := by omega
              simp [hac]
            · by_cases hcb : c.toNat < b.toNat
              · rw [if_neg hbc, if_pos hcb] at hyz
                simp at hyz
              · have hyz' : lexLe bs cs = true := by rwa [if_neg hbc, if_neg hcb] at hyz
                have hac : ¬ a.toNat < c.toNat := by omega
                have hca : ¬ c.toNat < a.toNat := by omega
                rw [if_neg hac, if_neg hca]
                exact ih bs cs hxy' hyz'

instance : IsTotal String lowerLe := ⟨fun _ _ => lexLe_total _ _⟩

instance : IsTrans String lowerLe := ⟨fun _ _ _ => lexLe_trans _ _ _⟩

theorem isPrefixOf_append_self : ∀ (r x : List String), r.isPrefixOf (r ++ x) = true
  | [], _ => by simp [List.isPrefixOf]
  | a :: r, x => by
    show (a == a && r.isPrefixOf (r ++ x)) = true
    simp [isPrefixOf_append_self r x]

theorem isPrefixOf_append_right {α : Type} [BEq α] :
    ∀ (a b c : List α), a.isPrefixOf b = true → a.isPrefixOf (b ++ c) = true
  | [], _, _, _ => by simp [List.isPrefixOf]
  | x :: a, [], _, h => by simp [List.isPrefixOf] at h
  | x :: a, y :: b, c, h => by
    show (x == y && a.isPrefixOf (b ++ c)) = true
    have h' : (x == y && a.isPrefixOf b) = true := h
    simp only [Bool.and_eq_true] at h' ⊢
    exact ⟨h'.1, isPrefixOf_append_right a b c h'.2⟩

theorem isSuffixOf_append_left (s t u : List Char) (h : s.isSuffixOf u = true) :
    s.isSuffixOf (t ++ u) = true := by
  unfold List.isSuffixOf at *
  rw [List.reverse_append]
  exact isPrefixOf_append_right _ _ _ h

/-- Inside `scan_folder` the start folder is the root folder when one is
set, so both `relative_to` branches strip exactly the start, leaving the
walk-relative components. -/
theorem recordTrack_getD (rootFolder : Option (List String)) (chosen : List String)
    (e : WalkEntry) :
    recordTrack rootFolder (rootFolder.getD chosen) e = joinPath (e.subdir ++ [e.file]) := by
  cases rootFolder with
  | none =>
    show joinPath ((chosen ++ e.subdir ++ [e.file]).drop chosen.length) = _
    rw [List.append_assoc, List.drop_left]
  | some r =>
    have hg : r.isPrefixOf (r ++ e.subdir ++ [e.file]) = true := by
      rw [List.append_assoc]; exact isPrefixOf_append_self ..
    show (if r.isPrefixOf (r ++ e.subdir ++ [e.file]) = true then
        joinPath ((r ++ e.subdir ++ [e.file]).drop r.length)
      else joinPath ((r ++ e.subdir ++ [e.file]).drop r.length)) = _
    rw [if_pos hg, List.append_assoc, List.drop_left]

theorem trackListOf_eq (root : Option (List String)) (start : List String) :
    ∀ es : List WalkEntry,
      trackListOf root start es
        = ((es.filter fun e => isAudioFile e.file).map (recordTrack root start))
  | [] => rfl
  | e :: es => by
    by_cases h : isAudioFile e.file = true <;>
      simp [trackListOf, List.filter_cons, h, trackListOf_eq root start es]

theorem data_joinPath_concat : ∀ (l : List String) (f : String),
    ∃ p, (joinPath (l ++ [f])).data = p ++ f.data
  | [], f => ⟨[], rfl⟩
  | c :: cs, f => by
    obtain ⟨p, hp⟩ := data_joinPath_concat cs f
    cases cs with
    | nil =>
      exact ⟨(c ++ "/").data, by simp [joinPath, String.data_append]⟩
    | cons d ds =>
      refine ⟨(c ++ "/").data ++ p, ?_⟩
      show (c ++ "/" ++ joinPath ((d :: ds) ++ [f])).data = _
      rw [String.data_append, hp, List.append_assoc]

theorem strEndsWith_joinPath_concat (l : List String) (f ext : String)
    (h : strEndsWith (lowerStr f) ext = true) :
    strEndsWith (lowerStr (joinPath (l ++ [f]))) ext = true := by
  obtain ⟨p, hp⟩ := data_joinPath_concat l f
  show ext.data.isSuffixOf ((joinPath (l ++ [f])).data.map Char.toLower) = true
  rw [hp, List.map_append]
  exact isSuffixOf_append_left _ _ _ h

/-- Removing the element at `r` and re-inserting it at `r - 1` swaps it
with its predecessor and moves nothing else. -/
theorem eraseIdx_insertIdx_pred {α : Type} :
    ∀ (l : List α) (r : Nat) (_h1 : 0 < r) (h2 : r < l.length),
      (l.eraseIdx r).insertIdx (r - 1) l[r]
        = l.take (r - 1) ++ l[r] :: l[r - 1] :: l.drop (r + 1)
  | [], r, _, h2 => by simp at h2
  | a :: l, 1, _, h2 => by
    match l, h2 with
    | b :: l, _ => simp [List.eraseIdx]
  | a :: l, r + 2, _, h2 => by
    have hlen : r + 1 < l.length := by
      simp only [List.length_cons] at h2; omega
    have ih := eraseIdx_insertIdx_pred l (r + 1) (Nat.succ_pos r) hlen
    have ih' : (l.eraseIdx (r + 1)).insertIdx r l[r + 1]
        = l.take r ++ l[r + 1] :: l[r] :: l.drop (r + 2) := by
      simpa using ih
    show (a :: l.eraseIdx (r + 1)).insertIdx (r + 1) (a :: l)[r + 2] = _
    have hget2 : (a :: l)[r + 2] = l[r + 1] := rfl
    rw [hget2, List.insertIdx_succ_cons, ih']
    show a :: (l.take r ++ l[r + 1] :: l[r] :: l.drop (r + 2))
        = (a :: l).take (r + 1) ++ l[r + 1] :: (a :: l)[r + 1] :: (a :: l).drop (r + 3)
    simp [List.take_succ_cons, List.drop_succ_cons, List.getElem_cons_succ]

/-- Removing the element at `r` and re-inserting it at `r + 1` swaps it
with its successor and moves nothing else. -/
theorem eraseIdx_insertIdx_succ {α : Type} :
    ∀ (l : List α) (r : Nat) (h : r + 1 < l.length),
      (l.eraseIdx r).insertIdx (r + 1) l[r]
        = l.take r ++ l[r + 1] :: l[r] :: l.drop (r + 2)
  | [], r, h => by simp at h
  | a :: l, 0, h => by
    match l, h with
    | b :: l, _ => simp [List.eraseIdx]
  | a :: l, r + 1, h => by
    have hlen : r + 1 < l.length := by
      simp only [List.length_cons] at h; omega
    have ih := eraseIdx_insertIdx_succ l r hlen
    show (a :: l.eraseIdx r).insertIdx (r + 2) (a :: l)[r + 1] = _
    have hget1 : (a :: l)[r + 1] = l[r] := rfl
    rw [hget1, List.insertIdx_succ_cons, ih]
    show a :: (l.take r ++ l[r + 1] :: l[r] :: l.drop (r + 2))
        = (a :: l).take (r + 1) ++ (a :: l)[r + 2] :: (a :: l)[r + 1] :: (a :: l).drop (r + 3)
    simp [List.take_succ_cons, List.drop_succ_cons, List.getElem_cons_succ]

theorem trackLines_get_even (root : Option (List String)) (sd : List String) :
    ∀ (ts : List String) (i : Nat), i < ts.length →
      (trackLines root sd ts)[2 * i]? = some "#EXTINF:,"
  | [], i, h => by simp at h
  | t :: ts, 0, _ => rfl
  | t :: ts, i + 1, h => by
    have hi : i < ts.length := by simpa using h
    have : 2 * (i + 1) = 2 * i + 1 + 1 := by ring
    rw [this]
    show ("#EXTINF:," :: lineFor root sd t :: trackLines root sd ts)[2 * i + 1 + 1]? = _
    rw [List.getElem?_cons_succ, List.getElem?_cons_succ]
    exact trackLines_get_even root sd ts i hi

theorem trackLines_get_odd (root : Option (List String)) (sd : List String) :
    ∀ (ts : List String) (i : Nat) (h : i < ts.length),
      (trackLines root sd ts)[2 * i + 1]? = some (lineFor root sd ts[i])
  | [], i, h => by simp at h
  | t :: ts, 0, _ => by simp [trackLines]
  | t :: ts, i + 1, h => by
    have hi : i < ts.length := by simpa using h
    have harith : 2 * (i + 1) + 1 = 2 * i + 1 + 1 + 1 := by ring
    rw [harith]
    show ("#EXTINF:," :: lineFor root sd t :: trackLines root sd ts)[2 * i + 1 + 1 + 1]? = _
    rw [List.getElem?_cons_succ, List.getElem?_cons_succ]
    have hget : (t :: ts)[i + 1] = ts[i] := rfl
    rw [hget]
    exact trackLines_get_odd root sd ts i hi

theorem trackLines_eq_flatten (root : Option (List String)) (sd : List String) :
    ∀ ts : List String,
      trackLines root sd ts = (ts.map fun t => ["#EXTINF:,", lineFor root sd t]).flatten
  | [] => rfl
  | t :: ts => by simp [trackLines, trackLines_eq_flatten root sd ts]

theorem length_trackLines (root : Option (List String)) (sd : List String) :
    ∀ ts : List String, (trackLines root sd ts).length = 2 * ts.length
  | [] => rfl
  | t :: ts => by
    show (trackLines root sd ts).length + 1 + 1 = 2 * (ts.length + 1)
    rw [length_trackLines root sd ts]
    ring

/-! ### The claims -/

/-- Claim C1: when saving a non-empty playlist each entry `t` is written by
the three-case rule — written unchanged when the output directory is the
root folder or when no root is set, and otherwise as the path of
`root / t` relative to the output directory, falling back to `t` when that
computation fails (`relpathOpt` returning `none`).  Saving the library
`["A/song.mp3", "b.flac"]` with root `/music` to `/music/sub/list.m3u8`
writes the path lines `../A/song.mp3` and `../b.flac`. -/
theorem save_relative_path_rule :
    (saveLines (some ["music"]) ["music", "sub"] ["A/song.mp3", "b.flac"]
        = ["#EXTM3U", "#EXTINF:,", "../A/song.mp3", "#EXTINF:,", "../b.flac"])
    ∧ (∀ (r saveDir : List String) (t : String), saveDir = r →
        lineFor (some r) saveDir t = t)
    ∧ (∀ (r saveDir : List String) (t : String), saveDir ≠ r →
        lineFor (some r) saveDir t = (relpathOpt (r ++ splitPath t) saveDir).getD t)
    ∧ (∀ (saveDir : List String) (t : String), lineFor none saveDir t = t) := by
  refine ⟨by decide, ?_, ?_, ?_⟩
  · intro r sd t h
    simp [lineFor, h]
  · intro r sd t h
    simp [lineFor, h]
  · intro sd t
    rfl

/-- Witness for C1 at a concrete input: saving directly into the root
folder writes the track text unchanged. -/
theorem save_relative_path_rule_witness :
    lineFor (some ["music"]) ["music"] "x.mp3" = "x.mp3" :=
  save_relative_path_rule.2.1 ["music"] ["music"] "x.mp3" rfl

/-- Claim C2 (code bug): the displayed view is NOT the subset of entries
containing the search text.  The filter condition in the source compares
the search text with itself (`txt.lower().find(txt)`, not
`t.lower().find(txt)`), so every entry passes: with library `["abc"]` and
search text `"zzz"` the code displays `["abc"]` while the spec's filter
(`specFilterLibrary`) keeps nothing. -/
theorem filter_shows_all_at_zzz :
    filterLibrary ["abc"] "zzz" = ["abc"] ∧ specFilterLibrary ["abc"] "zzz" = [] :=
  ⟨by decide, by decide⟩

/-- Claim C3: the saved file is exactly one `#EXTM3U` header line followed
by one `#EXTINF:,` line and one path line per track, in playlist order,
with nothing in between (so no blank-line separators; the line model
starts at the first byte, so no byte-order mark either). -/
theorem save_file_structure (root : Option (List String)) (sd : List String)
    (tracks : List String) (_hne : tracks ≠ []) :
    saveLines root sd tracks
        = "#EXTM3U" :: (tracks.map fun t => ["#EXTINF:,", lineFor root sd t]).flatten
    ∧ (saveLines root sd tracks).length = 1 + 2 * tracks.length
    ∧ ∀ i (h : i < tracks.length),
        (saveLines root sd tracks)[1 + 2 * i]? = some "#EXTINF:,"
        ∧ (saveLines root sd tracks)[2 + 2 * i]? = some (lineFor root sd tracks[i]) := by
  refine ⟨?_, ?_, ?_⟩
  · show "#EXTM3U" :: trackLines root sd tracks = _
    rw [trackLines_eq_flatten]
  · show ("#EXTM3U" :: trackLines root sd tracks).length = _
    rw [List.length_cons, length_trackLines]
    omega
  · intro i h
    constructor
    · show ("#EXTM3U" :: trackLines root sd tracks)[1 + 2 * i]? = _
      have harith : 1 + 2 * i = 2 * i + 1 := by omega
      rw [harith, List.getElem?_cons_succ]
      exact trackLines_get_even root sd tracks i h
    · show ("#EXTM3U" :: trackLines root sd tracks)[2 + 2 * i]? = _
      have harith : 2 + 2 * i = 2 * i + 1 + 1 := by omega
      rw [harith, List.getElem?_cons_succ]
      exact trackLines_get_odd root sd tracks i h

/-- Witness for C3 at a concrete input: one track gives three lines. -/
theorem save_file_structure_witness :
    (saveLines none [] ["x.mp3"]).length = 1 + 2 * (["x.mp3"] : List String).length :=
  (save_file_structure none [] ["x.mp3"] (by decide)).2.1

/-- Claim C4: after a scan every library entry ends (case-insensitively)
with one of the recognised audio extensions, and the library produced by a
scan does not depend on the previous library contents (wholesale
replacement). -/
theorem scan_library_audio_only (root : Option (List String)) (chosen : List String)
    (entries : List WalkEntry) :
    (∀ e ∈ scanFolder root chosen entries,
        ∃ ext ∈ AUDIO_EXTS, strEndsWith (lowerStr e) ext = true)
    ∧ (∀ s₁ s₂ : AppState, s₁.rootFolder = s₂.rootFolder →
        (scanStep s₁ chosen entries).library = (scanStep s₂ chosen entries).library) := by
  constructor
  · intro e he
    have he' : e ∈ List.insertionSort lowerLe
        (trackListOf root (root.getD chosen) entries) := he
    have he'' := (List.mem_insertionSort lowerLe).mp he'
    rw [trackListOf_eq] at he''
    obtain ⟨w, hw, rfl⟩ := List.mem_map.mp he''
    obtain ⟨_, hwaudio⟩ := List.mem_filter.mp hw
    obtain ⟨ext, hextmem, hext⟩ := List.any_eq_true.mp hwaudio
    refine ⟨ext, hextmem, ?_⟩
    rw [recordTrack_getD]
    exact strEndsWith_joinPath_concat _ _ _ hext
  · intro s1 s2 h
    show scanFolder s1.rootFolder chosen entries = scanFolder s2.rootFolder chosen entries
    rw [h]

/-- Witness for C4 at a concrete input. -/
theorem scan_library_audio_only_witness :
    ∃ ext ∈ AUDIO_EXTS, strEndsWith (lowerStr "a.mp3") ext = true :=
  (scan_library_audio_only none [] [⟨[], "a.mp3"⟩]).1 "a.mp3" (by decide)

/-- Claim C5: after every scan the library is case-insensitively sorted:
adjacent entries satisfy `lower(a) <= lower(b)`. -/
theorem scan_library_sorted (root : Option (List String)) (chosen : List String)
    (entries : List WalkEntry) :
    List.Chain' lowerLe (scanFolder root chosen entries) := by
  have h : List.Pairwise lowerLe
      (List.insertionSort lowerLe (trackListOf root (root.getD chosen) entries)) :=
    List.sorted_insertionSort lowerLe _
  exact h.chain'

/-- Claim C6: saving with an empty playlist only produces the warning:
no dialog follows, no file is written, and the state is unchanged. -/
theorem save_empty_playlist_blocked (s : AppState) (ok : Bool) (nameText : String)
    (dialogDir : Option (List String)) (h : s.playlist = []) :
    savePlaylist s ok nameText dialogDir = (s, SaveResult.warnedEmpty) := by
  simp [savePlaylist, h]

/-- Witness for C6 at a concrete input. -/
theorem save_empty_playlist_blocked_witness :
    savePlaylist ⟨none, [], []⟩ true "name" none
      = (⟨none, [], []⟩, SaveResult.warnedEmpty) :=
  save_empty_playlist_blocked _ _ _ _ rfl

/-- Claim C7: move-up swaps the selected entry with its predecessor and
move-down with its successor, leaving every other entry in place (the
take/swap/drop decomposition); at the boundaries (first entry for
move-up, last entry for move-down) both are no-ops. -/
theorem move_swaps_adjacent :
    (∀ (l : List String) (r : Nat) (_h1 : 0 < r) (h2 : r < l.length),
        (moveUp l (r : Int)).1 = l.take (r - 1) ++ l[r] :: l[r - 1] :: l.drop (r + 1))
    ∧ (∀ (l : List String) (row : Int), row ≤ 0 → (moveUp l row).1 = l)
    ∧ (∀ (l : List String) (r : Nat) (h : r + 1 < l.length),
        (moveDown l (r : Int)).1 = l.take r ++ l[r + 1] :: l[r] :: l.drop (r + 2))
    ∧ (∀ l : List String, l ≠ [] → (moveDown l ((l.length : Int) - 1)).1 = l) := by
  refine ⟨?_, ?_, ?_, ?_⟩
  · intro l r h1 h2
    have hr0 : (0 : Int) < (r : Int) := by exact_mod_cast h1
    have hcond : (0 : Int) ≤ (r : Int) ∧ (r : Int) < (l.length : Int) :=
      ⟨Int.natCast_nonneg r, by exact_mod_cast h2⟩
    have htake : takeItemAt l (r : Int) = (some l[r], l.eraseIdx r) := by
      unfold takeItemAt
      rw [if_pos hcond, Int.toNat_natCast, List.getElem?_eq_getElem h2]
    unfold moveUp
    rw [if_pos hr0]
    show insertItemAt (takeItemAt l (r : Int)).2 ((r : Int) - 1) (takeItemAt l (r : Int)).1 = _
    rw [htake]
    show (l.eraseIdx r).insertIdx ((r : Int) - 1).toNat l[r] = _
    have hidx : ((r : Int) - 1).toNat = r - 1 := by omega
    rw [hidx]
    exact eraseIdx_insertIdx_pred l r h1 h2
  · intro l row h
    have hng : ¬ (0 : Int) < row := by omega
    simp [moveUp, hng]
  · intro l r h
    have hr : r < l.length := by omega
    have hcond1 : (0 : Int) ≤ (r : Int) ∧ (r : Int) < (l.length : Int) - 1 :=
      ⟨Int.natCast_nonneg r, by omega⟩
    have hcond : (0 : Int) ≤ (r : Int) ∧ (r : Int) < (l.length : Int) :=
      ⟨Int.natCast_nonneg r, by exact_mod_cast hr⟩
    have htake : takeItemAt l (r : Int) = (some l[r], l.eraseIdx r) := by
      unfold takeItemAt
      rw [if_pos hcond, Int.toNat_natCast, List.getElem?_eq_getElem hr]
    unfold moveDown
    rw [if_pos hcond1]
    show insertItemAt (takeItemAt l (r : Int)).2 ((r : Int) + 1) (takeItemAt l (r : Int)).1 = _
    rw [htake]
    show (l.eraseIdx r).insertIdx ((r : Int) + 1).toNat l[r] = _
    have hidx : ((r : Int) + 1).toNat = r + 1 := by omega
    rw [hidx]
    exact eraseIdx_insertIdx_succ l r h
  · intro l _hne
    have hng : ¬ ((0 : Int) ≤ (l.length : Int) - 1
        ∧ (l.length : Int) - 1 < (l.length : Int) - 1) := by
      rintro ⟨-, hlt⟩
      exact lt_irrefl _ hlt
    simp [moveDown, hng]

/-- Witness for C7 at a concrete input: moving the middle entry up. -/
theorem move_swaps_adjacent_witness :
    (moveUp ["a", "b", "c"] ((1 : Nat) : Int)).1
      = (["a", "b", "c"] : List String).take 0
          ++ ["a", "b", "c"][1] :: ["a", "b", "c"][0]
          :: (["a", "b", "c"] : List String).drop 2 :=
  move_swaps_adjacent.1 ["a", "b", "c"] 1 (by decide) (by decide)

/-- Claim C8: the filter is idempotent — re-filtering the displayed set
with the same text changes nothing — and the empty search text displays
the whole library. -/
theorem filter_idempotent (library : List String) (txt : String) :
    filterLibrary (filterLibrary library txt) txt = filterLibrary library txt
    ∧ filterLibrary library "" = library := by
  constructor
  · simp only [filterLibrary]
    rw [List.filter_filter]
    simp only [Bool.and_self]
  · simp only [filterLibrary, show lowerStr (stripStr "") = "" from rfl,
      beq_self_eq_true, Bool.true_or, List.filter_true]

/-- Claim C9: a confirmed name prompt whose text is empty or whitespace
aborts the save silently (state unchanged, nothing written); a
non-whitespace name is stripped and `<name>.m3u8` becomes the suggested
file name. -/
theorem name_prompt_whitespace_aborts (s : AppState) (ok : Bool) (nameText : String)
    (dialogDir : Option (List String)) (hne : s.playlist ≠ []) :
    ((ok = false ∨ stripStr nameText = "") →
        savePlaylist s ok nameText dialogDir = (s, SaveResult.abortedName))
    ∧ (ok = true → stripStr nameText ≠ "" → ∀ sd, dialogDir = some sd →
        savePlaylist s ok nameText dialogDir
          = (s, SaveResult.wrote (stripStr nameText ++ ".m3u8") sd
              (saveLines s.rootFolder sd s.playlist))) := by
  have hempty : s.playlist.isEmpty = false := by
    cases hpl : s.playlist with
    | nil => exact absurd hpl hne
    | cons a l => rfl
  constructor
  · intro h
    have hcond : (!ok || (stripStr nameText == "")) = true := by
      rcases h with h | h
      · simp [h]
      · simp [h]
    simp [savePlaylist, hempty, hcond]
  · intro hok hname sd hdir
    have hcond : (!ok || (stripStr nameText == "")) = false := by
      simp [hok, hname]
    simp [savePlaylist, hempty, hcond, hdir]

/-- Witness for C9 at a concrete input: a whitespace-only name aborts. -/
theorem name_prompt_whitespace_aborts_witness :
    savePlaylist ⟨none, [], ["x.mp3"]⟩ true "   " none
      = (⟨none, [], ["x.mp3"]⟩, SaveResult.abortedName) :=
  (name_prompt_whitespace_aborts ⟨none, [], ["x.mp3"]⟩ true "   " none
    (by decide)).1 (Or.inr (by decide))

/-- Claim C10: with a root folder set the scan starts at the root itself
(the chosen folder is irrelevant), every recorded entry is the file's
path relative to the root, and the `relative_to(root)` guard is always
true there, so the start-relative branch is only reachable without a
root. -/
theorem scan_with_root_is_root_relative (r chosen : List String)
    (entries : List WalkEntry) :
    scanFolder (some r) chosen entries = scanFolder (some r) r entries
    ∧ scanFolder (some r) chosen entries
        = sortByLower ((entries.filter fun e => isAudioFile e.file).map
            fun e => joinPath (e.subdir ++ [e.file]))
    ∧ ∀ e ∈ entries, r.isPrefixOf (r ++ e.subdir ++ [e.file]) = true := by
  refine ⟨rfl, ?_, ?_⟩
  · show sortByLower (trackListOf (some r) ((some r).getD chosen) entries) = _
    rw [trackListOf_eq, funext (recordTrack_getD (some r) chosen)]
  · intro e _he
    rw [List.append_assoc]
    exact isPrefixOf_append_self ..

/-- Witness for C10 at a concrete input. -/
theorem scan_with_root_is_root_relative_witness :
    (["m"] : List String).isPrefixOf (["m"] ++ [] ++ ["a.mp3"]) = true :=
  (scan_with_root_is_root_relative ["m"] [] [⟨[], "a.mp3"⟩]).2.2 ⟨[], "a.mp3"⟩
    (by simp)

end Walkman
